import Mathlib

/-!
Shallow embedding of `crates/gpui3/src/app.rs`: the entity/context/effect core
of the gpui3 runtime.  Entities and windows live in keyed slot stores holding
`Option`al boxed values; mutation checks a value out (slot becomes `none`),
runs a closure that may re-enter the context, and restores the slot.  `notify`
enqueues a deferred `Effect::Notify` which is drained by `flush_effects` once
the reentrancy counter `pending_updates` returns to zero.

Client closures (`build_entity`, `update`, observer `on_notify` callbacks) are
arbitrary re-entrant code; we embed them as a deep syntax `Prog` of the context
operations the source exposes, interpreted by a fueled interpreter `exec`.
Machine values (`Box<dyn Any + Send>` payloads) are modelled as `Nat`; the
`downcast` type recovery is not modelled (handles are phantom-typed in the
source and every stored closure uses the matching type).  Rust panics
(`Option::unwrap` on `None`, slot-store lookup failures) are modelled as
`Except.error Err.panic`; divergence of client code is modelled by fuel
exhaustion (`Err.outOfFuel`), which is an artifact of the embedding, distinct
from `panic`.

A ghost `trace : List Event` field records, for specification purposes only,
the temporal events the claims speak about: raising a notify effect, applying
(delivering) a notify effect, and invoking a registered observer handler.
-/

/-- Entity payload values (`Box<dyn Any + Send>` in the source), modelled as `Nat`. -/
abbrev Val := Nat

/-- Keys of the entity slot store (`slotmap` keys; the store only ever grows,
so we model keys as list indices allocated consecutively). -/
abbrev EntityId := Nat

/-- Keys of the window slot store. -/
abbrev WindowId := Nat

/-- Modelled from the spec: `crate::Window` is outside the provided source;
the core only requires "a replaceable root-view slot and a `dirty` flag the
core sets after any window update" (spec §6). -/
structure Window where
  root_view : Option Val
  dirty : Bool
deriving DecidableEq, Repr

/-- Source type: `enum Effect { Notify(EntityId) }`. -/
inductive Effect where
  | notify (id : EntityId)
deriving DecidableEq, Repr

/-- Ghost trace events (specification instrumentation, not source state):
`notifyRaised id` marks `ModelContext::notify` pushing `Effect::Notify(id)`;
`applyNotify id` marks `flush_effects` popping that effect and delivering it
via `apply_notify_effect`; `handlerRun id k` marks the retain pass of
`apply_notify_effect` invoking the `k`-th registered handler for `id`. -/
inductive Event where
  | notifyRaised (id : EntityId)
  | applyNotify (id : EntityId)
  | handlerRun (id : EntityId) (k : Nat)
deriving DecidableEq, Repr

mutual
/-- Deep embedding of client closures: the operations a closure running
against the context can perform (the `Context` capability surface plus the
`ModelContext` extras and the private `AppContext::update` wrapper).
Every program runs with an ambient "current entity id" (the `entity_id` of the
`ModelContext` it receives); `notify`/`observe` use it like the source does. -/
inductive Prog where
  /-- Do nothing. -/
  | skip
  /-- Sequencing of two closure fragments. -/
  | seq (p q : Prog)
  /-- Method `AppContext::entity`: allocate an empty slot, run `build` with a
  `ModelContext` bound to the fresh id, store the built value (`value`). -/
  | createEntity (build : Prog) (value : Val)
  /-- Method `AppContext::update_entity` on the handle with id `id`: check the value
  out, run `body` with a `ModelContext` bound to `id` while applying `f` to
  the checked-out value through the `&mut T`, restore. -/
  | updateEntity (id : EntityId) (body : Prog) (f : Val → Val)
  /-- Method `AppContext::update_window` (result discarded by the closure). -/
  | updateWindow (id : WindowId) (body : Prog) (f : Window → Window)
  /-- Method `ModelContext::notify`: enqueue `Effect::Notify(current id)`. -/
  | notify
  /-- Method `ModelContext::observe` on a handle with id `target`: register a handler
  that, when invoked, checks `self` out and runs `on_notify` (embedded as the
  mutation `f` of the observing entity's value plus context code `body`). -/
  | observe (target : EntityId) (f : Val → Val) (body : Prog)
  /-- The private reentrancy-counted wrapper `AppContext::update`. -/
  | appUpdate (body : Prog)

/-- One entry of the `Handlers` list
(`Arc<dyn Fn(&mut AppContext) -> bool + Send + Sync>`).  The closure that
`ModelContext::observe` registers upgrades the observing entity's weak handle
and the observed handle; on success it runs `this.update(cx, on_notify)` and
returns `true`, otherwise it returns `false` without running `on_notify`.
Since `WeakHandle::upgrade` always succeeds, `keep` is `true` for every
handler the source can register; `keep = false` models the `false`-returning
branch of the general handler type stored in the registry. -/
inductive Handler where
  | mk (self_id : EntityId) (f : Val → Val) (body : Prog) (keep : Bool)
end

/-- The observing entity of a handler (`this` weak handle captured by `observe`). -/
def Handler.self_id : Handler → EntityId
  | .mk i _ _ _ => i

/-- The mutation `on_notify` applies to the observing entity's value. -/
def Handler.f : Handler → Val → Val
  | .mk _ f _ _ => f

/-- The context operations `on_notify` performs. -/
def Handler.body : Handler → Prog
  | .mk _ _ b _ => b

/-- The boolean the handler closure returns (whether to stay registered). -/
def Handler.keep : Handler → Bool
  | .mk _ _ _ k => k

/-- Source type: `HashMap<EntityId, Handlers>`, as a function into `Option` so that an
absent key is distinguished from a present empty handler list. -/
def ObsMap := EntityId → Option (List Handler)

/-- Operation `HashMap::remove` (forgetting the returned value). -/
def ObsMap.erase (m : ObsMap) (id : EntityId) : ObsMap :=
  fun j => if j = id then none else m j

/-- Operation `HashMap::insert` (overwriting). -/
def ObsMap.insert (m : ObsMap) (id : EntityId) (hs : List Handler) : ObsMap :=
  fun j => if j = id then some hs else m j

/-- The mutable state of `AppContext` relevant to the claims.  Omitted source
fields: `this` (the weak self pointer), `platform`, `text_system`,
`layout_id_buffer` (a recycled scratch buffer), `unit_entity_id` (always the
first slot, index `0`, see `initialState`).  `trace` is ghost instrumentation
(see `Event`), not source state. -/
structure AppState where
  /-- Field `entities: SlotMap<EntityId, Option<Box<dyn Any + Send>>>`;
  keys are consecutive indices, a slot is `none` while checked out. -/
  entities : List (Option Val)
  /-- Field `windows: SlotMap<WindowId, Option<Window>>`. -/
  windows : List (Option Window)
  /-- Field `pending_updates: usize`, the reentrancy counter. -/
  pending_updates : Nat
  /-- Field `pending_effects: VecDeque<Effect>` (front at the head). -/
  pending_effects : List Effect
  /-- Field `observers: HashMap<EntityId, Handlers>`. -/
  observers : ObsMap
  /-- Ghost event trace (specification only). -/
  trace : List Event

/-- Abnormal outcomes of running embedded code: `panic` models a Rust panic
(process-terminating); `outOfFuel` is the embedding's artifact for
nontermination of client code and can be avoided by choosing enough fuel. -/
inductive Err where
  | panic
  | outOfFuel
deriving DecidableEq, Repr

mutual

/-- Interpreter for embedded closures, mirroring the corresponding methods of
`AppContext` / `ModelContext`.  `ctx` is the `entity_id` of the ambient
`ModelContext`. -/
def exec (fuel : Nat) (p : Prog) (ctx : EntityId) (s : AppState) :
    Except Err AppState :=
  match fuel with
  | 0 => .error .outOfFuel
  | fuel + 1 =>
    match p with
    | .skip => .ok s
    | .seq p q =>
        match exec fuel p ctx s with
        | .error e => .error e
        | .ok s₁ => exec fuel q ctx s₁
    | .createEntity build value =>
        -- let id = self.entities.insert(None);
        let id := s.entities.length
        let s₁ := { s with entities := s.entities ++ [none] }
        -- let entity = Box::new(build_entity(&mut ModelContext::mutable(self, id)));
        match exec fuel build id s₁ with
        | .error e => .error e
        | .ok s₂ =>
          -- self.entities.get_mut(id).unwrap().replace(entity);
          match s₂.entities[id]? with
          | none => .error .panic
          | some _ => .ok { s₂ with entities := s₂.entities.set id (some value) }
    | .updateEntity id body f => update_entity fuel id body f s
    | .updateWindow id body f =>
        match update_window fuel id body f s with
        | .error e => .error e
        | .ok (_, s') => .ok s'
    | .notify =>
        -- self.app.pending_effects.push_back(Effect::Notify(self.entity_id));
        .ok { s with
              pending_effects := s.pending_effects ++ [.notify ctx]
              trace := s.trace ++ [.notifyRaised ctx] }
    | .observe target f body =>
        -- self.app.observers.entry(handle.id).or_default().push(Arc::new(move |cx| ...));
        .ok { s with
              observers := s.observers.insert target
                ((s.observers target).getD [] ++ [.mk ctx f body true]) }
    | .appUpdate body =>
        -- self.pending_updates += 1;
        match exec fuel body ctx { s with pending_updates := s.pending_updates + 1 } with
        | .error e => .error e
        | .ok s₁ =>
          -- self.pending_updates -= 1; if self.pending_updates == 0 { self.flush_effects(); }
          let s₂ := { s₁ with pending_updates := s₁.pending_updates - 1 }
          if s₂.pending_updates = 0 then flushEffects fuel s₂ else .ok s₂
termination_by structural fuel

/-- Method `AppContext::update_entity`: check the slot out
(`get_mut(id).unwrap().take().unwrap()` — panics if the id is absent or the
slot already checked out), run the update closure with a `ModelContext` bound
to `id`, restore the (mutated) value. -/
def update_entity (fuel : Nat) (id : EntityId) (body : Prog) (f : Val → Val)
    (s : AppState) : Except Err AppState :=
  match s.entities[id]? with
  | none => .error .panic            -- self.entities.get_mut(handle.id).unwrap()
  | some none => .error .panic       -- .take().unwrap()
  | some (some v) =>
    match fuel with
    | 0 => .error .outOfFuel
    | fuel + 1 =>
      match exec fuel body id { s with entities := s.entities.set id none } with
      | .error e => .error e
      | .ok s₂ =>
        -- self.entities.get_mut(handle.id).unwrap().replace(entity);
        match s₂.entities[id]? with
        | none => .error .panic
        | some _ => .ok { s₂ with entities := s₂.entities.set id (some (f v)) }
termination_by structural fuel

/-- Method `AppContext::update_window`: absent window id is a recoverable
`Err("window not found")` (inner `Except String`), but a present slot holding
`None` hits `.take().unwrap()` and panics.  The window-update closure is
embedded as context code `body` plus a window mutation `f`; `dirty` is set
after the closure returns, before the window is restored. -/
def update_window (fuel : Nat) (id : WindowId) (body : Prog) (f : Window → Window)
    (s : AppState) : Except Err (Except String Unit × AppState) :=
  match s.windows[id]? with
  | none => .ok (.error "window not found", s)   -- .ok_or_else(|| anyhow!("window not found"))?
  | some none => .error .panic                   -- .take().unwrap()
  | some (some w) =>
    match fuel with
    | 0 => .error .outOfFuel
    | fuel + 1 =>
      -- let result = update(&mut WindowContext::mutable(self, &mut window));
      match exec fuel body 0 { s with windows := s.windows.set id none } with
      | .error e => .error e
      | .ok s₂ =>
        -- window.dirty = true;
        let w' := { f w with dirty := true }
        match s₂.windows[id]? with
        | none => .ok (.error "window not found", s₂)
        | some _ => .ok (.ok (), { s₂ with windows := s₂.windows.set id (some w') })
termination_by structural fuel

/-- Method `AppContext::flush_effects`: `while let Some(effect) = pending_effects.pop_front()`,
apply it; the ghost `applyNotify` event is recorded at the pop. -/
def flushEffects (fuel : Nat) (s : AppState) : Except Err AppState :=
  match s.pending_effects with
  | [] => .ok s
  | .notify id :: rest =>
    match fuel with
    | 0 => .error .outOfFuel
    | fuel + 1 =>
      match apply_notify_effect fuel id
          { s with pending_effects := rest, trace := s.trace ++ [.applyNotify id] } with
      | .error e => .error e
      | .ok s₁ => flushEffects fuel s₁
termination_by structural fuel

/-- Method `AppContext::apply_notify_effect`: remove the handler list for the entity,
run a retain pass over it, then merge back any handlers freshly registered
during the pass and store the merged list. -/
def apply_notify_effect (fuel : Nat) (id : EntityId) (s : AppState) :
    Except Err AppState :=
  match s.observers id with
  | none => .ok s
  | some handlers =>
    match fuel with
    | 0 => .error .outOfFuel
    | fuel + 1 =>
      match retainHandlers fuel id 0 handlers { s with observers := s.observers.erase id } with
      | .error e => .error e
      | .ok (kept, s₂) =>
        -- if let Some(new_handlers) = self.observers.remove(&updated_entity)
        --     { handlers.extend(new_handlers); }
        -- self.observers.insert(updated_entity, handlers);
        match s₂.observers id with
        | some newHandlers =>
            .ok { s₂ with observers := s₂.observers.insert id (kept ++ newHandlers) }
        | none => .ok { s₂ with observers := s₂.observers.insert id kept }
termination_by structural fuel

/-- The retain pass `handlers.retain(|handler| handler(self))`: invoke each handler in
registration order (ghost event `handlerRun id k`); a handler whose weak
upgrades succeed checks its observer out, runs `on_notify` and stays (`keep`);
a `false`-returning handler is dropped without running `on_notify`.  Returns
the surviving handlers and the resulting state. -/
def retainHandlers (fuel : Nat) (id : EntityId) (k : Nat) (hs : List Handler)
    (s : AppState) : Except Err (List Handler × AppState) :=
  match hs with
  | [] => .ok ([], s)
  | h :: rest =>
    match fuel with
    | 0 => .error .outOfFuel
    | fuel + 1 =>
      let s₀ := { s with trace := s.trace ++ [.handlerRun id k] }
      if h.keep then
        match update_entity fuel h.self_id h.body h.f s₀ with
        | .error e => .error e
        | .ok s₁ =>
          match retainHandlers fuel id (k + 1) rest s₁ with
          | .error e => .error e
          | .ok (kept, s₂) => .ok (h :: kept, s₂)
      else
        match retainHandlers fuel id (k + 1) rest s₀ with
        | .error e => .error e
        | .ok (kept, s₂) => .ok (kept, s₂)
termination_by structural fuel

end

/-- The state `App::new` leaves behind: one entity slot holding the unit
entity (`unit_entity_id` is slot `0`), no windows, no pending updates or
effects, no observers. -/
def initialState : AppState where
  entities := [some 0]
  windows := []
  pending_updates := 0
  pending_effects := []
  observers := fun _ => none
  trace := []

/-- The private `ModelContext::update` (take / run `update` with the
downcast-mut payload and `self` / replace), embedded standalone: nothing in
the provided source calls it, but it exhibits the same checkout discipline as
`AppContext::update_entity`. -/
def ModelContext.update (fuel : Nat) (entity_id : EntityId) (body : Prog)
    (f : Val → Val) (s : AppState) : Except Err AppState :=
  match s.entities[entity_id]? with
  | none => .error .panic            -- self.app.entities.get_mut(self.entity_id).unwrap()
  | some none => .error .panic       -- .take().unwrap()
  | some (some v) =>
    match exec fuel body entity_id { s with entities := s.entities.set entity_id none } with
    | .error e => .error e
    | .ok s₂ =>
      -- self.app.entities.get_mut(self.entity_id).unwrap().replace(entity);
      match s₂.entities[entity_id]? with
      | none => .error .panic
      | some _ => .ok { s₂ with entities := s₂.entities.set entity_id (some (f v)) }

/-- The synchronous part of `AppContext::open_window`:
`let id = self.windows.insert(None); let handle = WindowHandle::new(id);`.
The remainder (constructing the `Window` on the main thread inside
`spawn_on_main` and storing it into the slot) is asynchronous cross-thread
dispatch, outside the embedding; until it runs, the allocated slot holds
`None`. -/
def open_window_sync (s : AppState) : WindowId × AppState :=
  (s.windows.length, { s with windows := s.windows ++ [none] })

/-- Source type `Handle<T>`: an `EntityId` plus a phantom type tag (the tag is not
modelled; payloads are untyped `Val`s). -/
structure Handle where
  id : EntityId
deriving DecidableEq, Repr

/-- Source type `WeakHandle<T>`: same representation as `Handle`. -/
structure WeakHandle where
  id : EntityId
deriving DecidableEq, Repr

/-- Method `Handle::downgrade`. -/
def Handle.downgrade (h : Handle) : WeakHandle := ⟨h.id⟩

/-- Method `WeakHandle::upgrade`: the source ignores the context argument and
unconditionally returns `Some(Handle { id: self.id, .. })`
(`// todo!("Actually upgrade")`). -/
def WeakHandle.upgrade (h : WeakHandle) (_cx : AppState) : Option Handle :=
  some ⟨h.id⟩

/-- Method `Handle::update`: delegates to `cx.update_entity(self, update)`. -/
def Handle.update (fuel : Nat) (h : Handle) (body : Prog) (f : Val → Val)
    (s : AppState) : Except Err AppState :=
  update_entity fuel h.id body f s

/-- Method `WeakHandle::update`: upgrade, and on success wrap the `update_entity`
result in `Ok`; if the upgrade failed it would return the recoverable
`Err(anyhow!("entity released"))` value (the inner `Except String`). -/
def WeakHandle.update (fuel : Nat) (h : WeakHandle) (body : Prog) (f : Val → Val)
    (s : AppState) : Except Err (Except String AppState) :=
  match h.upgrade s with
  | some this => (Handle.update fuel this body f s).map .ok
  | none => .ok (.error "entity released")

/-! ## Counting instrumentation

Per-entity counts of queued notify effects and of trace events, used to state
the conservation law behind the notification claims. -/

/-- Does this queued effect notify entity `id`? -/
def isNotifyOf (id : EntityId) : Effect → Bool
  | .notify j => j = id

/-- Is this event the delivery of a notification to `id`'s observers? -/
def isApplyOf (id : EntityId) : Event → Bool
  | .applyNotify j => j = id
  | _ => false

/-- Is this event the raising of a notify effect for `id`? -/
def isRaiseOf (id : EntityId) : Event → Bool
  | .notifyRaised j => j = id
  | _ => false

/-- Number of pending `Notify(id)` effects in a queue. -/
def countQueued (id : EntityId) (q : List Effect) : Nat := q.countP (isNotifyOf id)

/-- Number of times `id`'s observers have been notified (effect applied). -/
def countApply (id : EntityId) (t : List Event) : Nat := t.countP (isApplyOf id)

/-- Number of times a notify effect for `id` has been raised. -/
def countRaise (id : EntityId) (t : List Event) : Nat := t.countP (isRaiseOf id)

theorem countQueued_append (id : EntityId) (q₁ q₂ : List Effect) :
    countQueued id (q₁ ++ q₂) = countQueued id q₁ + countQueued id q₂ :=
  List.countP_append _ _ _

theorem countApply_append (id : EntityId) (t₁ t₂ : List Event) :
    countApply id (t₁ ++ t₂) = countApply id t₁ + countApply id t₂ :=
  List.countP_append _ _ _

theorem countRaise_append (id : EntityId) (t₁ t₂ : List Event) :
    countRaise id (t₁ ++ t₂) = countRaise id t₁ + countRaise id t₂ :=
  List.countP_append _ _ _

/-! ## Step invariants

`StepInv s s'` relates the state before and after any successfully completed
operation of the core: the ghost trace only grows, the reentrancy counter is
restored, and notifications are conserved: for each entity, effects queued
plus effects applied grow exactly by the effects raised.

`QuietInv` additionally records that code running while at least one update is
pending (the reentrancy counter is nonzero) never delivers a notification:
this is the flush-deferral discipline. -/

def StepInv (s s' : AppState) : Prop :=
  (∃ t, s'.trace = s.trace ++ t) ∧
  s'.pending_updates = s.pending_updates ∧
  ∀ id, countQueued id s'.pending_effects + countApply id s'.trace + countRaise id s.trace
      = countQueued id s.pending_effects + countApply id s.trace + countRaise id s'.trace

def QuietInv (s s' : AppState) : Prop :=
  StepInv s s' ∧
  (1 ≤ s.pending_updates → ∀ id, countApply id s'.trace = countApply id s.trace)

theorem stepInv_refl (s : AppState) : StepInv s s :=
  ⟨⟨[], (List.append_nil _).symm⟩, rfl, fun _ => rfl⟩

theorem stepInv_trans {s₁ s₂ s₃ : AppState} (h₁ : StepInv s₁ s₂) (h₂ : StepInv s₂ s₃) :
    StepInv s₁ s₃ := by
  obtain ⟨⟨t₁, ht₁⟩, hc₁, hq₁⟩ := h₁
  obtain ⟨⟨t₂, ht₂⟩, hc₂, hq₂⟩ := h₂
  refine ⟨⟨t₁ ++ t₂, by rw [ht₂, ht₁, List.append_assoc]⟩, hc₂.trans hc₁, fun id => ?_⟩
  have := hq₁ id
  have := hq₂ id
  omega

theorem quietInv_refl (s : AppState) : QuietInv s s :=
  ⟨stepInv_refl s, fun _ _ => rfl⟩

theorem quietInv_trans {s₁ s₂ s₃ : AppState} (h₁ : QuietInv s₁ s₂) (h₂ : QuietInv s₂ s₃) :
    QuietInv s₁ s₃ := by
  refine ⟨stepInv_trans h₁.1 h₂.1, fun hc id => ?_⟩
  have hc₂ : 1 ≤ s₂.pending_updates := h₁.1.2.1 ▸ hc
  rw [h₂.2 hc₂ id, h₁.2 hc id]

/-- A state differing only in the slot stores or observer registry satisfies
both invariants against the original. -/
theorem QuietInv.of_same_core {s s' : AppState}
    (ht : s'.trace = s.trace) (hc : s'.pending_updates = s.pending_updates)
    (hq : s'.pending_effects = s.pending_effects) : QuietInv s s' :=
  ⟨⟨⟨[], by rw [ht, List.append_nil]⟩, hc, fun id => by rw [ht, hq]⟩,
   fun _ _ => by rw [ht]⟩

/-- Unfolding of `update_entity` at positive fuel. -/
theorem update_entity_succ (fuel : Nat) (id : EntityId) (body : Prog) (f : Val → Val)
    (s : AppState) :
    update_entity (fuel + 1) id body f s =
      match s.entities[id]? with
      | none => .error .panic
      | some none => .error .panic
      | some (some v) =>
        match exec fuel body id { s with entities := s.entities.set id none } with
        | .error e => .error e
        | .ok s₂ =>
          match s₂.entities[id]? with
          | none => .error .panic
          | some _ => .ok { s₂ with entities := s₂.entities.set id (some (f v)) } := by
  unfold update_entity
  rfl

/-- Unfolding of `update_window` at positive fuel. -/
theorem update_window_succ (fuel : Nat) (id : WindowId) (body : Prog) (f : Window → Window)
    (s : AppState) :
    update_window (fuel + 1) id body f s =
      match s.windows[id]? with
      | none => .ok (.error "window not found", s)
      | some none => .error .panic
      | some (some w) =>
        match exec fuel body 0 { s with windows := s.windows.set id none } with
        | .error e => .error e
        | .ok s₂ =>
          match s₂.windows[id]? with
          | none => .ok (.error "window not found", s₂)
          | some _ =>
              .ok (.ok (), { s₂ with
                windows := s₂.windows.set id (some { f w with dirty := true }) }) := by
  unfold update_window
  rfl

/-- Unfolding of `apply_notify_effect` at positive fuel. -/
theorem apply_notify_effect_succ (fuel : Nat) (id : EntityId) (s : AppState) :
    apply_notify_effect (fuel + 1) id s =
      match s.observers id with
      | none => .ok s
      | some handlers =>
        match retainHandlers fuel id 0 handlers
            { s with observers := s.observers.erase id } with
        | .error e => .error e
        | .ok (kept, s₂) =>
          match s₂.observers id with
          | some newHandlers =>
              .ok { s₂ with observers := s₂.observers.insert id (kept ++ newHandlers) }
          | none => .ok { s₂ with observers := s₂.observers.insert id kept } := by
  unfold apply_notify_effect
  rfl

/-- Unfolding of `retainHandlers` at positive fuel. -/
theorem retainHandlers_succ (fuel : Nat) (id : EntityId) (k : Nat) (hs : List Handler)
    (s : AppState) :
    retainHandlers (fuel + 1) id k hs s =
      match hs with
      | [] => .ok ([], s)
      | h :: rest =>
        if h.keep then
          match update_entity fuel h.self_id h.body h.f
              { s with trace := s.trace ++ [.handlerRun id k] } with
          | .error e => .error e
          | .ok s₁ =>
            match retainHandlers fuel id (k + 1) rest s₁ with
            | .error e => .error e
            | .ok (kept, s₂) => .ok (h :: kept, s₂)
        else
          match retainHandlers fuel id (k + 1) rest
              { s with trace := s.trace ++ [.handlerRun id k] } with
          | .error e => .error e
          | .ok (kept, s₂) => .ok (kept, s₂) := by
  conv_lhs => unfold retainHandlers

/-- Unfolding of `flushEffects` at positive fuel. -/
theorem flushEffects_succ (fuel : Nat) (s : AppState) :
    flushEffects (fuel + 1) s =
      match s.pending_effects with
      | [] => .ok s
      | .notify id :: rest =>
        match apply_notify_effect fuel id
            { s with pending_effects := rest, trace := s.trace ++ [.applyNotify id] } with
        | .error e => .error e
        | .ok s₁ => flushEffects fuel s₁ := by
  conv_lhs => unfold flushEffects

/-- Appending a `handlerRun` ghost event preserves the conservation law. -/
theorem StepInv.extend_handlerRun (s : AppState) (id : EntityId) (k : Nat) :
    StepInv s { s with trace := s.trace ++ [.handlerRun id k] } := by
  refine ⟨⟨_, rfl⟩, rfl, fun j => ?_⟩
  simp [countApply_append, countRaise_append, countApply, countRaise,
    List.countP_cons, isApplyOf, isRaiseOf]

theorem coreInvariants : ∀ fuel : Nat,
    (∀ p ctx s s', exec fuel p ctx s = .ok s' → QuietInv s s') ∧
    (∀ id body f s s', update_entity fuel id body f s = .ok s' → QuietInv s s') ∧
    (∀ wid body f s r s', update_window fuel wid body f s = .ok (r, s') → QuietInv s s') ∧
    (∀ s s', flushEffects fuel s = .ok s' → StepInv s s' ∧ s'.pending_effects = []) ∧
    (∀ id s s', apply_notify_effect fuel id s = .ok s' → StepInv s s') ∧
    (∀ id k hs s kept s', retainHandlers fuel id k hs s = .ok (kept, s') →
        StepInv s s' ∧ kept = hs.filter (fun h => h.keep)) := by
  intro fuel
  induction fuel with
  | zero =>
      refine ⟨?_, ?_, ?_, ?_, ?_, ?_⟩
      · intro p ctx s s' h
        simp [exec] at h
      · intro id body f s s' h
        simp only [update_entity] at h
        split at h
        · simp at h
        · simp at h
        · simp at h
      · intro wid body f s r s' h
        simp only [update_window] at h
        split at h
        · simp only [Except.ok.injEq, Prod.mk.injEq] at h
          exact h.2 ▸ quietInv_refl s
        · simp at h
        · simp at h
      · intro s s' h
        simp only [flushEffects] at h
        split at h
        · next hq =>
            rw [Except.ok.injEq] at h
            subst h
            exact ⟨stepInv_refl _, hq⟩
        · simp at h
      · intro id s s' h
        simp only [apply_notify_effect] at h
        split at h
        · rw [Except.ok.injEq] at h
          subst h
          exact stepInv_refl _
        · simp at h
      · intro id k hs s kept s' h
        cases hs with
        | nil =>
            simp only [retainHandlers, Except.ok.injEq, Prod.mk.injEq] at h
            obtain ⟨hk, hss⟩ := h
            subst hss
            exact ⟨stepInv_refl _, hk.symm⟩
        | cons hd rest =>
            simp [retainHandlers] at h
  | succ fuel ih =>
      obtain ⟨IHexec, IHue, IHuw, IHflush, IHapply, IHretain⟩ := ih
      refine ⟨?_, ?_, ?_, ?_, ?_, ?_⟩
      -- exec
      · intro p ctx s s' h
        cases p with
        | skip =>
            simp only [exec, Except.ok.injEq] at h
            exact h ▸ quietInv_refl s
        | seq p q =>
            simp only [exec] at h
            split at h
            · simp at h
            · next s₁ h₁ =>
                exact quietInv_trans (IHexec p ctx s s₁ h₁) (IHexec q ctx s₁ s' h)
        | createEntity build value =>
            simp only [exec] at h
            split at h
            · simp at h
            · next s₂ hb =>
                split at h
                · simp at h
                · next v hv =>
                    rw [Except.ok.injEq] at h
                    subst h
                    exact quietInv_trans (quietInv_trans (QuietInv.of_same_core rfl rfl rfl)
                      (IHexec build s.entities.length
                        { s with entities := s.entities ++ [none] } s₂ hb))
                      (QuietInv.of_same_core rfl rfl rfl)
        | updateEntity id body f =>
            simp only [exec] at h
            exact IHue id body f s s' h
        | updateWindow id body f =>
            simp only [exec] at h
            split at h
            · simp at h
            · next r s₂ hw =>
                rw [Except.ok.injEq] at h
                subst h
                exact IHuw id body f s r _ hw
        | notify =>
            simp only [exec, Except.ok.injEq] at h
            subst h
            refine ⟨⟨⟨[.notifyRaised ctx], rfl⟩, rfl, fun j => ?_⟩, fun _ j => ?_⟩
            · simp [countQueued_append, countApply_append, countRaise_append,
                countQueued, countApply, countRaise, List.countP_cons,
                isNotifyOf, isApplyOf, isRaiseOf]
              omega
            · simp [countApply_append, countApply, List.countP_cons, isApplyOf]
        | observe target f body =>
            simp only [exec, Except.ok.injEq] at h
            subst h
            exact QuietInv.of_same_core rfl rfl rfl
        | appUpdate body =>
            simp only [exec] at h
            split at h
            · simp at h
            · next s₁ hb =>
                have hq := IHexec body ctx { s with pending_updates := s.pending_updates + 1 } s₁ hb
                have hcnt : s₁.pending_updates = s.pending_updates + 1 := hq.1.2.1
                obtain ⟨⟨⟨tb, htb⟩, _, hcons⟩, hquiet⟩ := hq
                have htb' : s₁.trace = s.trace ++ tb := htb
                have hcons' : ∀ j, countQueued j s₁.pending_effects + countApply j s₁.trace
                    + countRaise j s.trace
                    = countQueued j s.pending_effects + countApply j s.trace
                    + countRaise j s₁.trace := hcons
                split at h
                · next hzero =>
                    obtain ⟨⟨⟨tf, htf⟩, hcf, hconsf⟩, hempty⟩ := IHflush _ s' h
                    have htf' : s'.trace = s₁.trace ++ tf := htf
                    have hcf' : s'.pending_updates = s₁.pending_updates - 1 := hcf
                    have hconsf' : ∀ j, countQueued j s'.pending_effects + countApply j s'.trace
                        + countRaise j s₁.trace
                        = countQueued j s₁.pending_effects + countApply j s₁.trace
                        + countRaise j s'.trace := hconsf
                    have hz : s₁.pending_updates - 1 = 0 := hzero
                    refine ⟨⟨⟨tb ++ tf, ?_⟩, ?_, fun j => ?_⟩, fun hcc j => ?_⟩
                    · rw [htf', htb', List.append_assoc]
                    · omega
                    · have := hcons' j
                      have := hconsf' j
                      omega
                    · omega
                · next hnz =>
                    rw [Except.ok.injEq] at h
                    subst h
                    have hquiet' := hquiet (show 1 ≤ s.pending_updates + 1 by omega)
                    refine ⟨⟨⟨tb, htb'⟩, ?_, fun j => ?_⟩, fun hcc j => ?_⟩
                    · show s₁.pending_updates - 1 = s.pending_updates
                      omega
                    · exact hcons' j
                    · exact hquiet' j
      -- update_entity
      · intro id body f s s' h
        rw [update_entity_succ] at h
        split at h
        · simp at h
        · simp at h
        · next v hv =>
            split at h
            · simp at h
            · next s₂ hb =>
                split at h
                · simp at h
                · next v' hv' =>
                    rw [Except.ok.injEq] at h
                    subst h
                    exact quietInv_trans (quietInv_trans (QuietInv.of_same_core rfl rfl rfl)
                      (IHexec body id { s with entities := s.entities.set id none } s₂ hb))
                      (QuietInv.of_same_core rfl rfl rfl)
      -- update_window
      · intro wid body f s r s' h
        rw [update_window_succ] at h
        split at h
        · simp only [Except.ok.injEq, Prod.mk.injEq] at h
          exact h.2 ▸ quietInv_refl s
        · simp at h
        · next w hw =>
            split at h
            · simp at h
            · next s₂ hb =>
                have hmid := quietInv_trans (QuietInv.of_same_core rfl rfl rfl)
                  (IHexec body 0 { s with windows := s.windows.set wid none } s₂ hb)
                split at h
                · simp only [Except.ok.injEq, Prod.mk.injEq] at h
                  exact h.2 ▸ hmid
                · next w' hw' =>
                    simp only [Except.ok.injEq, Prod.mk.injEq] at h
                    exact h.2 ▸ (quietInv_trans hmid (QuietInv.of_same_core rfl rfl rfl))
      -- flushEffects
      · intro s s' h
        rw [flushEffects_succ] at h
        split at h
        · next hq =>
            rw [Except.ok.injEq] at h
            subst h
            exact ⟨stepInv_refl _, hq⟩
        · next id rest hq =>
            split at h
            · simp at h
            · next s₁ ha =>
                have hstep₀ : StepInv s
                    { s with pending_effects := rest, trace := s.trace ++ [.applyNotify id] } := by
                  refine ⟨⟨_, rfl⟩, rfl, fun j => ?_⟩
                  rw [hq]
                  simp [countQueued_append, countApply_append, countRaise_append,
                    countQueued, countApply, countRaise, List.countP_cons,
                    isNotifyOf, isApplyOf, isRaiseOf]
                  omega
                have hf := IHflush s₁ s' h
                exact ⟨stepInv_trans hstep₀ (stepInv_trans (IHapply id _ s₁ ha) hf.1), hf.2⟩
      -- apply_notify_effect
      · intro id s s' h
        rw [apply_notify_effect_succ] at h
        split at h
        · rw [Except.ok.injEq] at h
          subst h
          exact stepInv_refl _
        · next handlers hobs =>
            split at h
            · simp at h
            · next kept s₂ hr =>
                have hret := IHretain id 0 handlers _ kept s₂ hr
                have hpre : StepInv s { s with observers := s.observers.erase id } :=
                  (QuietInv.of_same_core rfl rfl rfl).1
                split at h
                · next newHandlers hnew =>
                    rw [Except.ok.injEq] at h
                    subst h
                    exact stepInv_trans (stepInv_trans hpre hret.1) (QuietInv.of_same_core rfl rfl rfl).1
                · next hnone =>
                    rw [Except.ok.injEq] at h
                    subst h
                    exact stepInv_trans (stepInv_trans hpre hret.1) (QuietInv.of_same_core rfl rfl rfl).1
      -- retainHandlers
      · intro id k hs s kept s' h
        rw [retainHandlers_succ] at h
        split at h
        · simp only [Except.ok.injEq, Prod.mk.injEq] at h
          obtain ⟨hk, hss⟩ := h
          subst hss
          exact ⟨stepInv_refl _, hk.symm⟩
        · next hd rest =>
            split at h
            · next hkeep =>
                split at h
                · simp at h
                · next s₁ hu =>
                    split at h
                    · simp at h
                    · next kept₂ s₂ hr =>
                        simp only [Except.ok.injEq, Prod.mk.injEq] at h
                        obtain ⟨hk, hss⟩ := h
                        subst hss
                        have h₁ := IHue hd.self_id hd.body hd.f _ s₁ hu
                        have h₂ := IHretain id (k + 1) rest s₁ kept₂ s₂ hr
                        refine ⟨stepInv_trans (stepInv_trans (StepInv.extend_handlerRun s id k) h₁.1) h₂.1, ?_⟩
                        rw [← hk, h₂.2]
                        simp [List.filter_cons, hkeep]
            · next hkeep =>
                split at h
                · simp at h
                · next kept₂ s₂ hr =>
                    simp only [Except.ok.injEq, Prod.mk.injEq] at h
                    obtain ⟨hk, hss⟩ := h
                    subst hss
                    have h₂ := IHretain id (k + 1) rest _ kept₂ s₂ hr
                    refine ⟨stepInv_trans (StepInv.extend_handlerRun s id k) h₂.1, ?_⟩
                    rw [← hk, h₂.2]
                    simp [List.filter_cons, hkeep]

/-! ## Claim theorems -/

/-- C7: Reentrant self-update fails loudly: calling `update_entity` on a
handle whose slot is currently checked out (holds `None`), or whose id is
absent from the entity store, panics (`Option::unwrap` on `None`): the
outcome is the fatal `Err.panic`, never a recoverable result, and the
payload is never aliased (the closure is not run). -/
theorem update_entity_missing_or_checked_out_panics
    (fuel : Nat) (id : EntityId) (body : Prog) (f : Val → Val) (s : AppState)
    (h : s.entities[id]? = none ∨ s.entities[id]? = some none) :
    update_entity fuel id body f s = .error .panic := by
  unfold update_entity
  rcases h with h | h <;> rw [h]

theorem update_entity_missing_or_checked_out_panics_witness :
    update_entity 5 3 .skip (fun v => v) initialState = .error .panic ∧
    update_entity 5 0 .skip (fun v => v)
      { initialState with entities := [none] } = .error .panic :=
  ⟨update_entity_missing_or_checked_out_panics 5 3 .skip (fun v => v) initialState
      (.inl rfl),
   update_entity_missing_or_checked_out_panics 5 0 .skip (fun v => v)
      { initialState with entities := [none] } (.inr rfl)⟩

/-- C8: `ModelContext::notify` only enqueues `Effect::Notify(self.entity_id)`
at the back of the pending-effect queue (and records the ghost
`notifyRaised` trace event); it runs no observer handler synchronously, and
the entity slots, window slots, observer registry and pending-update counter
are all unchanged, as the right-hand side's record update shows. -/
theorem notify_only_enqueues (fuel : Nat) (ctx : EntityId) (s : AppState) :
    exec (fuel + 1) .notify ctx s
      = .ok { s with pending_effects := s.pending_effects ++ [.notify ctx],
                     trace := s.trace ++ [.notifyRaised ctx] } := rfl

/-- C5: Window absence is recoverable: for a window id not present in the
window store, `update_window` returns the recoverable
`Err("window not found")` value rather than panicking; the update closure is
not run and the `AppContext` state is returned unchanged (and hence remains
usable). -/
theorem update_window_absent_id_recoverable
    (fuel : Nat) (wid : WindowId) (body : Prog) (f : Window → Window) (s : AppState)
    (h : s.windows[wid]? = none) :
    update_window fuel wid body f s = .ok (.error "window not found", s) := by
  unfold update_window
  rw [h]

theorem update_window_absent_id_recoverable_witness :
    update_window 5 0 .skip (fun w => w) initialState
      = .ok (.error "window not found", initialState) :=
  update_window_absent_id_recoverable 5 0 .skip (fun w => w) initialState rfl

/-- C9: after every successful `update_window` call (one returning `Ok`),
the updated window is restored into its slot with its `dirty` flag `true`,
regardless of what the update closure (`body`, `f`) did. -/
theorem update_window_ok_sets_dirty
    (fuel : Nat) (wid : WindowId) (body : Prog) (f : Window → Window) (s s' : AppState)
    (h : update_window fuel wid body f s = .ok (.ok (), s')) :
    ∃ w, s'.windows[wid]? = some (some w) ∧ w.dirty = true := by
  cases fuel with
  | zero =>
      unfold update_window at h
      split at h
      · simp at h
      · simp at h
      · simp at h
  | succ fuel =>
      rw [update_window_succ] at h
      split at h
      · simp at h
      · simp at h
      · next w hw =>
          split at h
          · simp at h
          · next s₂ hb =>
              split at h
              · simp at h
              · next w' hw' =>
                  simp only [Except.ok.injEq, Prod.mk.injEq, true_and] at h
                  subst h
                  refine ⟨{ f w with dirty := true }, ?_, rfl⟩
                  exact List.getElem?_set_eq_of_lt _ (List.getElem?_eq_some.mp hw').1

theorem update_window_ok_sets_dirty_witness :
    ∃ s', update_window 5 0 .skip (fun w => { w with dirty := false })
        { initialState with windows := [some { root_view := none, dirty := false }] }
        = .ok (.ok (), s') ∧
      ∃ w, s'.windows[0]? = some (some w) ∧ w.dirty = true := by
  refine ⟨_, rfl, ?_⟩
  exact update_window_ok_sets_dirty 5 0 .skip (fun w => { w with dirty := false })
    { initialState with windows := [some { root_view := none, dirty := false }] } _ rfl

/-- C10: `update_window`'s recoverable-error guarantee covers only ids absent
from the window store: a slot that exists but holds `None` (window checked
out by an enclosing update, or freshly allocated by `open_window` before the
main-thread construction stores the window) hits `.take().unwrap()` and
panics.  The second conjunct shows `open_window`'s synchronous part leaves
exactly such a slot. -/
theorem update_window_checked_out_slot_panics
    (fuel : Nat) (wid : WindowId) (body : Prog) (f : Window → Window) (s : AppState) :
    (s.windows[wid]? = some none → update_window fuel wid body f s = .error .panic) ∧
    (open_window_sync s).2.windows[(open_window_sync s).1]? = some none := by
  constructor
  · intro h
    unfold update_window
    rw [h]
  · exact List.getElem?_concat_length _ _

theorem update_window_checked_out_slot_panics_witness :
    update_window 5 (open_window_sync initialState).1 .skip (fun w => w)
      (open_window_sync initialState).2 = .error .panic :=
  (update_window_checked_out_slot_panics 5 _ .skip (fun w => w) _).1
    (update_window_checked_out_slot_panics 5 0 .skip (fun w => w) initialState).2

/-- C6: `WeakHandle::upgrade` ignores liveness and always returns `Some`
handle carrying the same `EntityId`; consequently `WeakHandle::update` never
takes the "entity released" error branch: it is exactly `update_entity` on
the carried id with the result wrapped in `Ok`, so for a live slot it
returns `Ok` of the update closure's result. -/
theorem weakHandle_upgrade_always_some
    (fuel : Nat) (h : WeakHandle) (body : Prog) (f : Val → Val) (s : AppState) :
    h.upgrade s = some ⟨h.id⟩ ∧
    WeakHandle.update fuel h body f s = (update_entity fuel h.id body f s).map .ok ∧
    ∀ msg, WeakHandle.update fuel h body f s ≠ .ok (.error msg) := by
  refine ⟨rfl, rfl, fun msg hcontra => ?_⟩
  rw [show WeakHandle.update fuel h body f s
      = (update_entity fuel h.id body f s).map .ok from rfl] at hcontra
  cases hu : update_entity fuel h.id body f s <;>
    rw [hu] at hcontra <;> simp [Except.map] at hcontra

/-- C2: checkout discipline.  A slot accessed by `update_entity` / `entity`
(`createEntity`) / `ModelContext::update` is `none` only while its value is
checked out to the in-progress closure: whenever the call returns
successfully, the slot has been restored to `Some` — holding the updated
value `f v` (resp. the built `value`) — even though the closure (`body`) may
itself have created or updated arbitrary other entities. -/
theorem checkout_discipline (fuel : Nat) (s s' : AppState) :
    (∀ id body f, update_entity fuel id body f s = .ok s' →
        ∃ v, s.entities[id]? = some (some v) ∧ s'.entities[id]? = some (some (f v))) ∧
    (∀ build value ctx, exec (fuel + 1) (.createEntity build value) ctx s = .ok s' →
        s'.entities[s.entities.length]? = some (some value)) ∧
    (∀ id body f, ModelContext.update fuel id body f s = .ok s' →
        ∃ v, s.entities[id]? = some (some v) ∧ s'.entities[id]? = some (some (f v))) := by
  refine ⟨fun id body f h => ?_, fun build value ctx h => ?_, fun id body f h => ?_⟩
  · cases fuel with
    | zero =>
        unfold update_entity at h
        split at h
        · simp at h
        · simp at h
        · simp at h
    | succ fuel =>
        rw [update_entity_succ] at h
        split at h
        · simp at h
        · simp at h
        · next v hv =>
            split at h
            · simp at h
            · next s₂ hb =>
                split at h
                · simp at h
                · next v' hv' =>
                    rw [Except.ok.injEq] at h
                    subst h
                    exact ⟨v, hv,
                      List.getElem?_set_eq_of_lt _ (List.getElem?_eq_some.mp hv').1⟩
  · simp only [exec] at h
    split at h
    · simp at h
    · next s₂ hb =>
        split at h
        · simp at h
        · next v hv' =>
            rw [Except.ok.injEq] at h
            subst h
            exact List.getElem?_set_eq_of_lt _ (List.getElem?_eq_some.mp hv').1
  · unfold ModelContext.update at h
    split at h
    · simp at h
    · simp at h
    · next v hv =>
        split at h
        · simp at h
        · next s₂ hb =>
            split at h
            · simp at h
            · next v' hv' =>
                rw [Except.ok.injEq] at h
                subst h
                exact ⟨v, hv,
                  List.getElem?_set_eq_of_lt _ (List.getElem?_eq_some.mp hv').1⟩

theorem checkout_discipline_witness :
    ∃ s', update_entity 5 0 (.createEntity .skip 7) (fun v => v + 1) initialState
        = .ok s' ∧
      ∃ v, initialState.entities[0]? = some (some v) ∧
        s'.entities[0]? = some (some (v + 1)) := by
  refine ⟨_, rfl, ?_⟩
  exact (checkout_discipline 5 initialState _).1 0 (.createEntity .skip 7)
    (fun v => v + 1) rfl

/-- C3: fixed-point flush with FIFO order.  (1) `flush_effects` pops effects
from the front of the queue in raise (FIFO) order: on a non-empty queue it
applies the front effect first and then continues flushing the remainder.
(2) It keeps draining until the queue is empty: a successful flush ends with
an empty queue, and the per-entity accounting shows every effect that was
queued at entry and every `Notify` raised while earlier effects' observers
were running (`countRaise` delta) has itself been applied (`countApply`
delta) before the flush returned — draining is transitive, not one
generation. -/
theorem flush_fifo_and_drains_transitively (fuel : Nat) (s s' : AppState) :
    (∀ id rest, s.pending_effects = .notify id :: rest →
        flushEffects (fuel + 1) s =
          match apply_notify_effect fuel id
              { s with pending_effects := rest,
                       trace := s.trace ++ [.applyNotify id] } with
          | .error e => .error e
          | .ok s₁ => flushEffects fuel s₁) ∧
    (flushEffects fuel s = .ok s' →
        s'.pending_effects = [] ∧
        ∀ id, countApply id s'.trace + countRaise id s.trace
            = countApply id s.trace + countQueued id s.pending_effects
              + countRaise id s'.trace) := by
  constructor
  · intro id rest hq
    rw [flushEffects_succ, hq]
  · intro h
    obtain ⟨⟨_, _, hcons⟩, hempty⟩ := (coreInvariants fuel).2.2.2.1 s s' h
    refine ⟨hempty, fun id => ?_⟩
    have := hcons id
    rw [hempty] at this
    have h0 : countQueued id ([] : List Effect) = 0 := rfl
    omega

/-- Flush scenario: one pending `Notify(0)`, and entity `0` has an observer
(owned by entity `1`) that itself calls `notify` — so flushing must also
deliver the transitively raised `Notify(1)`. -/
def flushScenario : AppState where
  entities := [some 0, some 5]
  windows := []
  pending_updates := 0
  pending_effects := [.notify 0]
  observers := fun j => if j = 0 then some [.mk 1 (fun v => v) .notify true] else none
  trace := []

set_option maxHeartbeats 2000000 in
theorem flush_fifo_and_drains_transitively_witness :
    (flushEffects 11 flushScenario =
      match apply_notify_effect 10 0
          { flushScenario with pending_effects := [],
                               trace := flushScenario.trace ++ [.applyNotify 0] } with
      | .error e => .error e
      | .ok s₁ => flushEffects 10 s₁) ∧
    ∃ s', flushEffects 10 flushScenario = .ok s' ∧
      s'.pending_effects = [] ∧
      countApply 1 s'.trace + countRaise 1 flushScenario.trace
        = countApply 1 flushScenario.trace + countQueued 1 flushScenario.pending_effects
          + countRaise 1 s'.trace := by
  obtain ⟨s', hs'⟩ : ∃ s', flushEffects 10 flushScenario = .ok s' := ⟨_, rfl⟩
  refine ⟨(flush_fifo_and_drains_transitively 10 flushScenario s').1 0 [] rfl,
    s', hs', (flush_fifo_and_drains_transitively 10 flushScenario s').2 hs' |>.1,
    ((flush_fifo_and_drains_transitively 10 flushScenario s').2 hs').2 1⟩

/-- Evaluation of `retainHandlers` on an empty handler list returns immediately. -/
theorem retainHandlers_nil (fuel : Nat) (id : EntityId) (k : Nat) (s : AppState) :
    retainHandlers fuel id k [] s = .ok ([], s) := by
  cases fuel <;> rfl

/-- Unfolding of `retainHandlers` on a non-empty handler list at positive
fuel: the head handler is invoked first (ghost `handlerRun id k` marker),
then the pass continues with the tail. -/
theorem retainHandlers_cons (fuel : Nat) (id : EntityId) (k : Nat) (hd : Handler)
    (rest : List Handler) (s : AppState) :
    retainHandlers (fuel + 1) id k (hd :: rest) s =
      if hd.keep then
        match update_entity fuel hd.self_id hd.body hd.f
            { s with trace := s.trace ++ [.handlerRun id k] } with
        | .error e => .error e
        | .ok s₁ =>
          match retainHandlers fuel id (k + 1) rest s₁ with
          | .error e => .error e
          | .ok (kept, s₂) => .ok (hd :: kept, s₂)
      else
        match retainHandlers fuel id (k + 1) rest
            { s with trace := s.trace ++ [.handlerRun id k] } with
        | .error e => .error e
        | .ok (kept, s₂) => .ok (kept, s₂) := by
  conv_lhs => unfold retainHandlers

/-- The retain pass of `apply_notify_effect` appends to the ghost trace one
`handlerRun id k` marker per original handler, in registration order: the
markers for positions `k, k+1, ...` occur as a sublist (in that order) of the
trace segment the pass appended. -/
theorem retainHandlers_trace (fuel : Nat) (id : EntityId) :
    ∀ (hs : List Handler) (k : Nat) (s : AppState) (kept : List Handler) (s' : AppState),
      retainHandlers fuel id k hs s = .ok (kept, s') →
      ∃ t, s'.trace = s.trace ++ t ∧
        List.Sublist ((List.range' k hs.length).map (Event.handlerRun id)) t := by
  induction fuel with
  | zero =>
      intro hs k s kept s' h
      cases hs with
      | nil =>
          rw [retainHandlers_nil, Except.ok.injEq, Prod.mk.injEq] at h
          obtain ⟨-, hss⟩ := h
          subst hss
          exact ⟨[], (List.append_nil _).symm, by simp⟩
      | cons hd rest => simp [retainHandlers] at h
  | succ fuel ih =>
      intro hs k s kept s' h
      cases hs with
      | nil =>
          rw [retainHandlers_nil, Except.ok.injEq, Prod.mk.injEq] at h
          obtain ⟨-, hss⟩ := h
          subst hss
          exact ⟨[], (List.append_nil _).symm, by simp⟩
      | cons hd rest =>
          rw [retainHandlers_cons] at h
          split at h
          · next hkeep =>
              split at h
              · simp at h
              · next s₁ hu =>
                  split at h
                  · simp at h
                  · next kept₂ s₂ hr =>
                      simp only [Except.ok.injEq, Prod.mk.injEq] at h
                      obtain ⟨-, hss⟩ := h
                      subst hss
                      obtain ⟨⟨⟨tb, htb⟩, -, -⟩, -⟩ := (coreInvariants fuel).2.1 _ _ _ _ _ hu
                      obtain ⟨tr, htr, hsub⟩ := ih rest (k + 1) s₁ kept₂ s₂ hr
                      have htb' : s₁.trace = (s.trace ++ [.handlerRun id k]) ++ tb := htb
                      refine ⟨.handlerRun id k :: (tb ++ tr), ?_, ?_⟩
                      · rw [htr, htb']
                        simp [List.append_assoc]
                      · rw [List.length_cons, List.range'_succ k rest.length 1,
                          List.map_cons]
                        exact (hsub.trans (List.sublist_append_right tb tr)).cons₂ _
          · next hkeep =>
              split at h
              · simp at h
              · next kept₂ s₂ hr =>
                  simp only [Except.ok.injEq, Prod.mk.injEq] at h
                  obtain ⟨-, hss⟩ := h
                  subst hss
                  obtain ⟨tr, htr, hsub⟩ := ih rest (k + 1) _ kept₂ s₂ hr
                  have htr' : s₂.trace = (s.trace ++ [.handlerRun id k]) ++ tr := htr
                  refine ⟨.handlerRun id k :: tr, ?_, ?_⟩
                  · rw [htr']
                    simp [List.append_assoc]
                  · rw [List.length_cons, List.range'_succ k rest.length 1,
                      List.map_cons]
                    exact hsub.cons₂ _

/-- C4: handler survival under concurrent registration.  When `Notify(id)` is
applied: the handler list for `id` is removed and the retain pass runs over
exactly that snapshot (`retainHandlers ... hs`), invoking the original
handlers in registration order (the in-order `handlerRun` markers); handlers
returning `false` are dropped (`kept` is exactly the `keep`-filtered
snapshot); and any handler freshly registered for `id` during the pass
(whatever `s₂.observers id` holds afterwards) is merged back behind the
survivors — retained for `id`'s next notification, not lost, and not part of
the snapshot the pass invoked. -/
theorem apply_notify_merges_fresh_handlers
    (fuel : Nat) (id : EntityId) (s s' : AppState) (hs : List Handler)
    (hobs : s.observers id = some hs)
    (h : apply_notify_effect (fuel + 1) id s = .ok s') :
    ∃ kept s₂,
      retainHandlers fuel id 0 hs { s with observers := s.observers.erase id }
        = .ok (kept, s₂) ∧
      kept = hs.filter (fun hh => hh.keep) ∧
      s'.observers id = some (kept ++ (s₂.observers id).getD []) ∧
      (∀ j, j ≠ id → s'.observers j = s₂.observers j) ∧
      ∃ t, s₂.trace = s.trace ++ t ∧
        List.Sublist ((List.range hs.length).map (Event.handlerRun id)) t := by
  rw [apply_notify_effect_succ] at h
  split at h
  · next heq =>
      rw [hobs] at heq
      simp at heq
  · next handlers heq =>
      rw [hobs, Option.some.injEq] at heq
      subst heq
      split at h
      · simp at h
      · next kept s₂ hr =>
            have hkept := ((coreInvariants fuel).2.2.2.2.2 _ _ _ _ _ _ hr).2
            obtain ⟨t, ht, hsub⟩ := retainHandlers_trace fuel id hs 0 _ kept s₂ hr
            rw [List.range_eq_range']
            split at h
            · next newHandlers hnew =>
                rw [Except.ok.injEq] at h
                subst h
                refine ⟨kept, s₂, hr, hkept, ?_, ?_, t, ht, hsub⟩
                · simp [ObsMap.insert, hnew]
                · intro j hj
                  simp only [ObsMap.insert, if_neg hj]
            · next hnone =>
                rw [Except.ok.injEq] at h
                subst h
                refine ⟨kept, s₂, hr, hkept, ?_, ?_, t, ht, hsub⟩
                · simp [ObsMap.insert, hnone]
                · intro j hj
                  simp only [ObsMap.insert, if_neg hj]

/-- Notify-application scenario for the witness: entity `5` has two
registered handlers; the first (owned by entity `0`) re-registers a fresh
observer for `5` while running, the second returns `false`. -/
def applyScenario : AppState where
  entities := [some 3]
  windows := []
  pending_updates := 0
  pending_effects := []
  observers := fun j =>
    if j = 5 then
      some [.mk 0 (fun v => v + 1) (.observe 5 (fun v => v) .skip) true,
            .mk 0 (fun v => v) .skip false]
    else none
  trace := []

set_option maxHeartbeats 1000000 in
theorem apply_notify_merges_fresh_handlers_witness :
    ∃ s', apply_notify_effect 10 5 applyScenario = .ok s' ∧
      ∃ kept s₂,
        retainHandlers 9 5 0
            [.mk 0 (fun v => v + 1) (.observe 5 (fun v => v) .skip) true,
             .mk 0 (fun v => v) .skip false]
            { applyScenario with observers := applyScenario.observers.erase 5 }
          = .ok (kept, s₂) ∧
        kept = List.filter (fun hh => hh.keep)
            [.mk 0 (fun v => v + 1) (.observe 5 (fun v => v) .skip) true,
             .mk 0 (fun v => v) .skip false] ∧
        s'.observers 5 = some (kept ++ (s₂.observers 5).getD []) ∧
        (∀ j, j ≠ 5 → s'.observers j = s₂.observers j) ∧
        ∃ t, s₂.trace = applyScenario.trace ++ t ∧
          List.Sublist ((List.range 2).map (Event.handlerRun 5)) t := by
  obtain ⟨s', hs'⟩ : ∃ s', apply_notify_effect 10 5 applyScenario = .ok s' := ⟨_, rfl⟩
  exact ⟨s', hs', apply_notify_merges_fresh_handlers 9 5 applyScenario s' _ rfl hs'⟩

/-- C1: deferred notification through the reentrancy-counted wrapper.  Run an
outermost `AppContext::update` (`appUpdate body`) from a quiescent state (no
pending updates, no pending effects); `body` may nest entity creations,
entity updates and further `update` calls arbitrarily deep.  If entity `A` is
notified exactly once over the whole run (`countRaise A = 1`), then `A`'s
observers are notified exactly once (`countApply A = 1`), and never during
the update: the body's own execution (everything up to the point where the
outermost update returns and flushing starts) contains no `applyNotify`
event at all — the single delivery happens in the flush segment appended
strictly after the body's trace. -/
theorem notify_once_observers_once_after_outermost
    (fuel : Nat) (body : Prog) (ctx A : EntityId) (s s' : AppState)
    (hq : s.pending_updates = 0) (he : s.pending_effects = []) (ht : s.trace = [])
    (hrun : exec (fuel + 1) (.appUpdate body) ctx s = .ok s')
    (honce : countRaise A s'.trace = 1) :
    countApply A s'.trace = 1 ∧
    ∃ s₁, exec fuel body ctx { s with pending_updates := s.pending_updates + 1 } = .ok s₁ ∧
      countApply A s₁.trace = 0 ∧
      (∃ t, s'.trace = s₁.trace ++ t) ∧
      flushEffects fuel { s₁ with pending_updates := s₁.pending_updates - 1 } = .ok s' := by
  have hfull := (coreInvariants (fuel + 1)).1 _ ctx s s' hrun
  simp only [exec] at hrun
  split at hrun
  · simp at hrun
  · next s₁ hb =>
      have hquiet := (coreInvariants fuel).1 body ctx _ s₁ hb
      have hcnt : s₁.pending_updates = s.pending_updates + 1 := hquiet.1.2.1
      split at hrun
      · next hzero =>
          have hca : countApply A s₁.trace = 0 := by
            have h2 := hquiet.2 (show 1 ≤ s.pending_updates + 1 by omega) A
            have h2' : countApply A s₁.trace = countApply A s.trace := h2
            rw [h2', ht]
            rfl
          obtain ⟨⟨⟨tf, htf⟩, hcf, hconsf⟩, hempty⟩ := (coreInvariants fuel).2.2.2.1 _ s' hrun
          have h1 : countQueued A s.pending_effects = 0 := by rw [he]; rfl
          have h2 : countApply A s.trace = 0 := by rw [ht]; rfl
          have h3 : countRaise A s.trace = 0 := by rw [ht]; rfl
          have h4 : countQueued A s'.pending_effects = 0 := by rw [hempty]; rfl
          have hcons := hfull.1.2.2 A
          refine ⟨by omega, s₁, hb, hca, ⟨tf, htf⟩, hrun⟩
      · next hnz =>
          exact absurd (show s₁.pending_updates - 1 = 0 by omega) hnz

/-- Final state of the witness scenario for the deferred-notification claim:
`appUpdate` around an `update_entity` of the unit entity whose closure calls
`notify` once. -/
def notifyScenarioFinal : AppState where
  entities := [some 0]
  windows := []
  pending_updates := 0
  pending_effects := []
  observers := fun _ => none
  trace := [.notifyRaised 0, .applyNotify 0]

theorem notify_once_observers_once_after_outermost_witness :
    exec 10 (.appUpdate (.updateEntity 0 .notify (fun v => v))) 0 initialState
      = .ok notifyScenarioFinal ∧
    countRaise 0 notifyScenarioFinal.trace = 1 ∧
    countApply 0 notifyScenarioFinal.trace = 1 :=
  ⟨rfl, rfl,
    (notify_once_observers_once_after_outermost 9 (.updateEntity 0 .notify (fun v => v))
      0 0 initialState notifyScenarioFinal rfl rfl rfl rfl rfl).1⟩
